import Mathlib

/-!
Verification development for the deepcell-label label-editing engine.

The Python sources are shallowly embedded below:
* module-level helpers of `src/desktop/caliban.py` (`relabel_frame`,
  `predict_zstack_cell_ids`);
* the `ZStackReview` label-editing engine from `src/desktop/caliban.py`
  (cell index bookkeeping `add_cell_info` / `del_cell_info` and the actions
  cited by the claims);
* the `Edit` engine of `src/deepcell_label/label.py` (overlap-encoded labels);
* the memento / undo / redo machinery of `src/browser/models.py`.

Machine integers: labels are modelled as `Int` (numpy signed integers; the
label values in play are small nonnegative numbers, far from any overflow).
A 2-D label frame is modelled as a function `Nat → Nat → Int` together with
explicit height/width bounds; numpy's elementwise `np.where` then becomes a
pointwise conditional.  Fallible code paths (python `KeyError`, `ValueError`
from `np.max([])`, `max({})`, `regionprops(...)[0]` on an empty mask) are
modelled with `Option`.  External skimage primitives (watershed, hysteresis
thresholding) are not part of this repository; where an action consumes their
result the embedding takes that result as an explicit argument, with a
specification recording the guarantees the library documents.
-/

set_option maxHeartbeats 1000000

namespace DeepcellLabel

/-! # Definitions -/

/-! ## numpy-like helpers -/

/-- Model of `np.unique`: the distinct values in ascending order. -/
def npUnique {α : Type} [LinearOrder α] [DecidableEq α] (xs : List α) : List α :=
  xs.dedup.insertionSort (· ≤ ·)

/-- A 2-D integer image, accessed as `img i j` for row `i`, column `j`. -/
abbrev Img := Nat → Nat → Int

/-- Build an image from a row-major list-of-lists literal (pixels outside the
literal read 0). -/
def ofList (m : List (List Int)) : Img := fun i j => (m.getD i []).getD j 0

/-- Read an `h × w` image back into a row-major list-of-lists. -/
def toList (img : Img) (h w : Nat) : List (List Int) :=
  (List.range h).map (fun i => (List.range w).map (fun j => img i j))

/-- The values of an `h × w` image in row-major (ndarray iteration) order. -/
def vals (img : Img) (h w : Nat) : List Int :=
  ((List.range h).map (fun i => (List.range w).map (fun j => img i j))).flatten

/-- `np.any(np.isin(img, l))` on an `h × w` image: is the value present? -/
def labelInFrame (img : Img) (h w : Nat) (l : Int) : Bool :=
  (List.range h).any (fun i => (List.range w).any (fun j => img i j == l))

/-! ## `relabel_frame` (src/desktop/caliban.py, lines 3860-3874) -/

/-- The `cell_list` of `relabel_frame`: `np.unique(img)` restricted to its
nonzero values (ascending, no duplicates). -/
def relabelCells (img : Img) (h w : Nat) : List Int :=
  (npUnique (vals img h w)).filter (· ≠ 0)

/-- Source: `relabel_frame(img, start_val)`.  Starting from a zero array, each
cell of `cell_list`, in ascending order, is written in with
`np.where(img == cell, relabeled_cell_list[i], relabeled_img)` where
`relabeled_cell_list = range(start_val, len(cell_list)+start_val)`. -/
def relabelFrame (img : Img) (h w : Nat) (startVal : Int) : Img :=
  (relabelCells img h w).enum.foldl
    (fun relabeled (p : Nat × Int) =>
      fun i j => if img i j = p.2 then startVal + (p.1 : Int) else relabeled i j)
    (fun _ _ => 0)

/-! ## The `Edit` engine (src/deepcell_label/label.py)

`Edit` stores a 2-D array `self.labels` of encoded values; row `value` of
`self.overlaps` records, per label id, whether that pixel value encodes the
label.  `self.new_value` is `overlaps.shape[0]` at load time and is
incremented for every appended row; `self.new_label` is `overlaps.shape[1]`
at load time and is never updated afterwards. -/

structure EditState where
  labels : List (List Nat)
  overlaps : List (List Bool)
  newValue : Nat
  newLabel : Nat
deriving DecidableEq

/-- `Edit.get_value(labels)`: `np.where(np.all(labels == self.overlaps,
axis=1))[0]` picks the first row equal to the label vector; when no row
matches, the vector is appended and the pre-increment `new_value` returned. -/
def getValue (vec : List Bool) (st : EditState) : Nat × EditState :=
  match st.overlaps.findIdx? (· == vec) with
  | some v => (v, st)
  | none => (st.newValue,
      { st with overlaps := st.overlaps ++ [vec], newValue := st.newValue + 1 })

/-- `Edit.add_label(label)`: append an all-zero column to `overlaps` when the
label is exactly `new_label`. -/
def addLabel (l : Nat) (st : EditState) : EditState :=
  if l = st.newLabel then
    { st with overlaps := st.overlaps.map (fun row => row ++ [false]) }
  else st

/-- A 2-D boolean mask, like the numpy masks `Edit` builds. -/
abbrev Mask := List (List Bool)

def maskAt (m : Mask) (i j : Nat) : Bool := (m.getD i []).getD j false

/-- `np.any(mask)`. -/
def anyMask (m : Mask) : Bool := m.any (fun row => row.any id)

/-- `self.labels[mask]`: the values under the mask in row-major order. -/
def maskVals (labels : List (List Nat)) (m : Mask) : List Nat :=
  (List.zipWith (fun lr mr =>
      (List.zipWith (fun x b => (x, b)) lr mr).filterMap
        (fun p => if p.2 then some p.1 else none)) labels m).flatten

/-- `Edit.get_mask(label)`: the source loops over `enumerate(overlaps[:,
label])` and sets `mask[labels == value] = True` whenever row `value` encodes
the label; pixelwise this reads the label bit of each pixel's value row
(out-of-range rows were never enumerated, hence read as `False`). -/
def getMask (l : Nat) (st : EditState) : Mask :=
  st.labels.map (List.map (fun v => (st.overlaps.getD v []).getD l false))

/-- `Edit.overlap_mask(mask, label, remove)`: `add_label` when the mask is
non-empty, then for each value of `np.unique(self.labels[mask])` in ascending
order, re-encode `overlaps[value]` with the label bit set to `not remove` and
rewrite `self.labels[mask & (self.labels == value)] = new_value`. -/
def overlapMask (m : Mask) (l : Nat) (remove : Bool) (st : EditState) : EditState :=
  let st1 := if anyMask m then addLabel l st else st
  (npUnique (maskVals st1.labels m)).foldl
    (fun s v =>
      let vec := (s.overlaps.getD v []).set l (!remove)
      let nv := (getValue vec s).1
      let s' := (getValue vec s).2
      let newLabels :=
        List.zipWith (fun lr mr =>
          List.zipWith (fun x b => if b && x == v then nv else x) lr mr)
          s'.labels m
      { s' with labels := newLabels })
    st1

/-- `Edit.remove_mask(mask, label)`. -/
def removeMask (m : Mask) (l : Nat) (st : EditState) : EditState :=
  overlapMask m l true st

/-- Neighbor index under scipy's default `mode='reflect'` boundary handling;
for a radius-1 (3×3) footprint the symmetric reflection `(d c b a | a b c d)`
coincides with clamping the index into `[0, n-1]`. -/
def reflectIdx (n : Nat) (k : Int) : Nat :=
  if k < 0 then 0 else if (n : Int) ≤ k then n - 1 else k.toNat

/-- `skimage.morphology.erosion(mask, square(3))`: a 3×3 minimum filter,
evaluated through `scipy.ndimage.grey_erosion` with its default reflected
border (outside pixels mirror the edge, so a full 1×1 mask stays full). -/
def erosion3x3 (m : Mask) : Mask :=
  let h := m.length
  let w := (m.headD []).length
  (List.range h).map (fun i => (List.range w).map (fun j =>
    ([-1, 0, 1] : List Int).all (fun di =>
      ([-1, 0, 1] : List Int).all (fun dj =>
        maskAt m (reflectIdx h ((i : Int) + di)) (reflectIdx w ((j : Int) + dj))))))

/-- `Edit.action_erode(label)` (src/deepcell_label/label.py, lines 390-396):
erode the label's mask with a 3×3 square and remove the lost pixels. -/
def actionErode (l : Nat) (st : EditState) : EditState :=
  let mask := getMask l st
  let eroded := erosion3x3 mask
  removeMask (List.zipWith (List.zipWith (fun a b => a && !b)) mask eroded) l st

/-- `Edit.clean_label(label)`: `int(min(self.new_label, max(0, label)))`. -/
def cleanLabel (l : Int) (st : EditState) : Nat :=
  (min (st.newLabel : Int) (max 0 l)).toNat

/-- `Edit.action_replace(a, b)` (src/deepcell_label/label.py, lines 195-209):
for every value of `np.unique(self.labels)` whose row encodes `b`, re-encode
with `b` cleared and `a` set (`1 if a != 0 else 0`) and rewrite
`self.labels[self.labels == value]` to the re-encoded value. -/
def actionReplaceEdit (a b : Int) (st : EditState) : EditState :=
  let ac := cleanLabel a st
  let bc := cleanLabel b st
  (npUnique st.labels.flatten).foldl
    (fun s v =>
      let vec := s.overlaps.getD v []
      if vec.getD bc false then
        let newVec := (vec.set bc false).set ac (decide (ac ≠ 0))
        let nv := (getValue newVec s).1
        let s' := (getValue newVec s).2
        let newLabels := s'.labels.map (List.map (fun x => if x = v then nv else x))
        { s' with labels := newLabels }
      else s)
    st

/-- The per-request `writeMode` of `edit.json` (label.py, lines 56-60);
`'overlap'` is the default. -/
inductive WriteMode where
  | overwrite
  | exclude
  | overlap
deriving DecidableEq

/-- `labels = np.zeros(self.overlaps.shape[1]); labels[label] = True`: the
one-hot row for a label over the current column count. -/
def oneHot (width l : Nat) : List Bool := (List.replicate width false).set l true

/-- `self.labels[mask] = value`: write one value under a boolean mask. -/
def setMask (labels : List (List Nat)) (m : Mask) (nv : Nat) : List (List Nat) :=
  List.zipWith (fun lr mr => List.zipWith (fun x b => if b then nv else x) lr mr)
    labels m

/-- `Edit.add_mask(mask, label)` (label.py, lines 140-157): `'overwrite'`
replaces every masked pixel with the label's one-hot value, `'exclude'` first
restricts the mask to background pixels (`mask & (self.labels == 0)`), and
the default `'overlap'` delegates to `overlap_mask`.  (`labels[label]` with
`label` out of the widened column range would raise `IndexError` in numpy;
no theorem here exercises that case.) -/
def addMask (m : Mask) (l : Nat) (mode : WriteMode) (st : EditState) : EditState :=
  match mode with
  | .overwrite =>
      let st1 := if anyMask m then addLabel l st else st
      let vec := oneHot (st1.overlaps.headD []).length l
      let nv := (getValue vec st1).1
      let st2 := (getValue vec st1).2
      { st2 with labels := setMask st2.labels m nv }
  | .exclude =>
      let m2 := List.zipWith (fun mr lr =>
        List.zipWith (fun b (x : Nat) => b && x == 0) mr lr) m st.labels
      let st1 := if anyMask m2 then addLabel l st else st
      let vec := oneHot (st1.overlaps.headD []).length l
      let nv := (getValue vec st1).1
      let st2 := (getValue vec st1).2
      { st2 with labels := setMask st2.labels m2 nv }
  | .overlap => overlapMask m l false st

/-- `Edit.action_threshold(y1, x1, y2, x2, label)` (label.py, lines 322-350):
clean the label, build the bounding box, let skimage's triangle/hysteresis
thresholding produce a boolean crop (`hyst`, an oracle for the two
`filters` calls on the raw image), embed it into a full-size mask and hand it
to `add_mask` under the session's write mode. -/
def actionThresholdEdit (y1 x1 y2 x2 : Nat) (l : Int) (hyst : Nat → Nat → Bool)
    (mode : WriteMode) (st : EditState) : EditState :=
  let lc := cleanLabel l st
  let top := min y1 y2
  let bottom := max y1 y2 + 1
  let left := min x1 x2
  let right := max x1 x2 + 1
  let mask : Mask := (List.range st.labels.length).map (fun i =>
    (List.range (st.labels.getD i []).length).map (fun j =>
      decide (top ≤ i ∧ i < bottom ∧ left ≤ j ∧ j < right) && hyst (i - top) (j - left)))
  addMask mask lc mode st

/-- The 1×1 `Edit` state of the claim-C6 browser counterexample: a single
pixel whose value 1 encodes exactly label 1. -/
def c6Edit : EditState :=
  { labels := [[1]], overlaps := [[false, false], [false, true]],
    newValue := 2, newLabel := 2 }

/-- Well-formedness of an `Edit` state, maintained by the encoding: rows of
`overlaps` all have width `new_label`, no two rows are equal, the background
column 0 is never set, and every pixel value indexes a row. -/
def EditWf (st : EditState) : Prop :=
  (∀ row ∈ st.overlaps, row.length = st.newLabel) ∧
  st.overlaps.Nodup ∧
  (∀ row ∈ st.overlaps, row.getD 0 false = false) ∧
  (∀ x ∈ st.labels.flatten, x < st.overlaps.length)

instance (st : EditState) : Decidable (EditWf st) := by
  unfold EditWf
  infer_instance

/-- The 1×1 `Edit` state of the claim-C8 scenario: a single pixel whose value
1 encodes exactly label 1 (`labeled.dat` = `[[1]]`, `overlaps.json` =
`[[0, 0], [0, 1]]`). -/
def c8OnePixel : EditState :=
  { labels := [[1]], overlaps := [[false, false], [false, true]],
    newValue := 2, newLabel := 2 }

/-- A 3×3 `Edit` state whose label 1 occupies only the interior pixel. -/
def c8Interior : EditState :=
  { labels := [[0, 0, 0], [0, 1, 0], [0, 0, 0]],
    overlaps := [[false, false], [false, true]],
    newValue := 2, newLabel := 2 }

/-! ## The `ZStackReview` engine (src/desktop/caliban.py)

The state is restricted to the feature (layer) being edited:
`annotated[:, :, :, feature]` becomes the frame list, `cell_ids[feature]` the
id list and `cell_info[feature]` an association list from label to its
`frames` entry (the `label`/`slices` strings of an entry are derived,
purely presentational data and are omitted).  Every action of the source
reads and writes only `self.feature`, so the remaining layers are untouched. -/

structure ZState where
  annotated : List Img
  height : Nat
  width : Nat
  cellIds : List Int
  cellInfo : List (Int × List Nat)

/-- `self.annotated[f, :, :, feature]`. -/
def frameAt (st : ZState) (f : Nat) : Img := st.annotated.getD f (fun _ _ => 0)

/-- `self.cell_info[feature][label]['frames']`, `none` on a `KeyError`. -/
def infoFrames (info : List (Int × List Nat)) (l : Int) : Option (List Nat) :=
  (info.find? (fun p => p.1 == l)).map Prod.snd

/-- `self.cell_info[feature][label].update({'frames': fs})` (the entry keeps
its position in the dict). -/
def infoSet (info : List (Int × List Nat)) (l : Int) (fs : List Nat) :
    List (Int × List Nat) :=
  info.map (fun p => if p.1 == l then (p.1, fs) else p)

/-- `ZStackReview.add_cell_info(feature, add_label, frame)` (lines 3474-3523):
no-op on label 0; an existing entry gets `np.unique(np.append(frames, frame))`
(sorted, deduplicated); an unknown label gets a fresh entry with
`frames = [frame]` and is appended to `cell_ids`. -/
def addCellInfo (l : Int) (f : Nat) (st : ZState) : ZState :=
  if l = 0 then st else
  match infoFrames st.cellInfo l with
  | some oldFrames =>
      { st with cellInfo := infoSet st.cellInfo l (npUnique (oldFrames ++ [f])) }
  | none =>
      { st with cellInfo := st.cellInfo ++ [(l, [f])],
                cellIds := st.cellIds ++ [l] }

/-- `ZStackReview.del_cell_info(feature, del_label, frame)` (lines 3525-3568):
no-op on label 0; otherwise `np.delete` removes every occurrence of the frame
from the entry's frame list, and an emptied entry is deleted together with its
id in `cell_ids`.  A missing entry raises `KeyError` (`none`). -/
def delCellInfo (l : Int) (f : Nat) (st : ZState) : Option ZState :=
  if l = 0 then some st else
  match infoFrames st.cellInfo l with
  | none => none
  | some oldFrames =>
      let updated := oldFrames.filter (· ≠ f)
      if updated = [] then
        some { st with cellInfo := st.cellInfo.filter (fun p => p.1 ≠ l),
                       cellIds := st.cellIds.filter (· ≠ l) }
      else
        some { st with cellInfo := infoSet st.cellInfo l updated }

/-- The `cell_ids` computed by `ZStackReview.create_cell_info(feature)`:
`np.unique(annotated)` restricted to nonzero values. -/
def createCellIds (frames : List Img) (h w : Nat) : List Int :=
  (npUnique ((frames.map (fun fr => vals fr h w)).flatten)).filter (· ≠ 0)

/-- The `cell_info` computed by `ZStackReview.create_cell_info(feature)`: per
cell, the increasing list of frames containing the cell. -/
def createCellInfo (frames : List Img) (h w : Nat) : List (Int × List Nat) :=
  (createCellIds frames h w).map (fun cell =>
    (cell, (List.range frames.length).filter
      (fun f => labelInFrame (frames.getD f (fun _ _ => 0)) h w cell)))

/-- A freshly loaded `ZStackReview` session: the index is built from the
annotation volume by `create_cell_info`. -/
def zstackInit (frames : List Img) (h w : Nat) : ZState :=
  { annotated := frames, height := h, width := w,
    cellIds := createCellIds frames h w,
    cellInfo := createCellInfo frames h w }

/-- `ZStackReview.get_max_label()` (lines 2789-2802): 0 when the feature has
no ids (guarding the `np.max` crash), else the maximum id. -/
def getMaxLabel (st : ZState) : Int :=
  if st.cellIds = [] then 0 else (st.cellIds.max?).getD 0

/-- `ZStackReview.get_new_label()` (lines 2804-2818): `get_max_label() + 1`. -/
def getNewLabel (st : ZState) : Int := getMaxLabel st + 1

/-- `TrackReview.get_max_label` / `get_new_label` (lines 1612-1616):
`max(self.tracks) + 1` over the track dict's keys; python's `max` on an empty
dict raises `ValueError` (`none`). -/
def trackGetNewLabel (tracks : List Int) : Option Int :=
  tracks.max?.map (· + 1)

/-- The claim-C1 invariant between the label volume and the cell index, per
layer: an entry's frame list is non-empty and lists exactly the frames where
its label appears, `cell_ids` and the `cell_info` keys agree, and every
non-zero pixel value has an index entry. -/
def Consistent (st : ZState) : Prop :=
  (∀ p ∈ st.cellInfo, p.2 ≠ [] ∧
    (∀ f ∈ p.2, f < st.annotated.length ∧
      labelInFrame (frameAt st f) st.height st.width p.1 = true)) ∧
  (∀ f, f < st.annotated.length →
    ∀ p ∈ st.cellInfo,
      labelInFrame (frameAt st f) st.height st.width p.1 = true → f ∈ p.2) ∧
  (∀ p ∈ st.cellInfo, p.1 ∈ st.cellIds) ∧
  (∀ l ∈ st.cellIds, ∃ p ∈ st.cellInfo, p.1 = l) ∧
  (∀ f, f < st.annotated.length → ∀ i, i < st.height → ∀ j, j < st.width →
    frameAt st f i j ≠ 0 → ∃ p ∈ st.cellInfo, p.1 = frameAt st f i j)

instance (st : ZState) : Decidable (Consistent st) := by
  unfold Consistent
  infer_instance

/-- `ZStackReview.action_replace_single()` (lines 2901-2937): guarded no-op on
`label_1 == label_2`; otherwise overwrite `label_2` with `label_1` in the
frame where `label_2` was selected and update the index. -/
def actionReplaceSingle (l1 l2 : Int) (f : Nat) (st : ZState) : Option ZState :=
  if l1 = l2 then some st
  else
    let ann := frameAt st f
    let ann2 : Img := fun i j => if ann i j = l2 then l1 else ann i j
    delCellInfo l2 f (addCellInfo l1 f { st with annotated := st.annotated.set f ann2 })

/-- `ZStackReview.action_replace()` (lines 2939-2971): guarded no-op on
`label_1 == label_2`; otherwise, in every frame containing `label_2`,
overwrite it with `label_1` and update the index for that frame. -/
def actionReplace (l1 l2 : Int) (st : ZState) : Option ZState :=
  if l1 = l2 then some st
  else
    (List.range st.annotated.length).foldlM
      (fun s f =>
        let ann := frameAt s f
        if labelInFrame ann s.height s.width l2 then
          let ann2 : Img := fun i j => if ann i j = l2 then l1 else ann i j
          delCellInfo l2 f
            (addCellInfo l1 f { s with annotated := s.annotated.set f ann2 })
        else some s)
      st

/-- `ZStackReview.action_swap_single_frame()` (lines 3010-3040): when two
distinct labels were selected in the same frame, exchange them there through
the −1 sentinel (`np.where` passes); `cell_info` is not modified. -/
def actionSwapSingleFrame (l1 : Int) (f1 : Nat) (l2 : Int) (f2 : Nat)
    (st : ZState) : ZState :=
  if l1 ≠ l2 ∧ f1 = f2 then
    let ann := frameAt st f1
    let a1 : Img := fun i j => if ann i j = l1 then -1 else ann i j
    let a2 : Img := fun i j => if a1 i j = l2 then l1 else a1 i j
    let a3 : Img := fun i j => if a2 i j = -1 then l2 else a2 i j
    { st with annotated := st.annotated.set f1 a3 }
  else st

/-- `ZStackReview.action_delete_mask()` (lines 3154-3174): zero the label's
pixels in the frame where it was selected and delete the frame from its index
entry. -/
def actionDeleteMask (l : Int) (f : Nat) (st : ZState) : Option ZState :=
  let ann := frameAt st f
  let ann2 : Img := fun i j => if ann i j = l then 0 else ann i j
  delCellInfo l f { st with annotated := st.annotated.set f ann2 }

/-- `ZStackReview.action_threshold_predict(y1, y2, x1, x2)` (lines 3106-3152).
`hyst` is the boolean crop produced by skimage's triangle-threshold +
hysteresis pass over the raw image (external library output, passed as an
argument).  `ann_threshold = np.where(hyst, new_label, 0)` is merged as
`safe_overlay = np.where(predict_area == 0, ann_threshold, predict_area)`; the
annotation and the index are only touched when `new_label` appears in
`safe_overlay`. -/
def actionThresholdPredict (cf y1 y2 x1 x2 : Nat) (hyst : Nat → Nat → Bool)
    (st : ZState) : ZState :=
  let newLabel := getNewLabel st
  let imgAnn := frameAt st cf
  let safeOverlay : Img := fun i j =>
    if imgAnn (y1 + i) (x1 + j) = 0 then (if hyst i j then newLabel else 0)
    else imgAnn (y1 + i) (x1 + j)
  if labelInFrame safeOverlay (y2 - y1) (x2 - x1) newLabel then
    let st2 := addCellInfo newLabel cf st
    let ann2 : Img := fun i j =>
      if y1 ≤ i ∧ i < y2 ∧ x1 ≤ j ∧ j < x2 then safeOverlay (i - y1) (j - x1)
      else imgAnn i j
    { st2 with annotated := st2.annotated.set cf ann2 }
  else st

/-- The bounding box of the mask `img == label`, as
`regionprops(np.int32(img == label))[0].bbox = (minr, minc, maxr, maxc)`
(half-open); `none` when the mask is empty (`props[0]` raises `IndexError`). -/
def bboxOf (img : Img) (h w : Nat) (l : Int) : Option (Nat × Nat × Nat × Nat) :=
  let rows := (List.range h).filter (fun i => (List.range w).any (fun j => img i j == l))
  let cols := (List.range w).filter (fun j => (List.range h).any (fun i => img i j == l))
  match rows.min?, rows.max?, cols.min?, cols.max? with
  | some minr, some maxr, some minc, some maxc =>
      some (minr, minc, maxr + 1, maxc + 1)
  | _, _, _, _ => none

/-- The guarantees of `skimage.segmentation.watershed(image, markers,
mask=mask)` that `action_watershed` relies on: a marker pixel inside the mask
keeps its marker label, pixels outside the mask stay 0, and every labelled
output pixel carries the label of some marker. -/
def WatershedSpec (markers : Img) (mask : Nat → Nat → Bool) (h w : Nat)
    (ws : Img) : Prop :=
  (∀ i < h, ∀ j < w, mask i j = true → markers i j ≠ 0 → ws i j = markers i j) ∧
  (∀ i < h, ∀ j < w, mask i j = false → ws i j = 0) ∧
  (∀ i < h, ∀ j < w, ws i j ≠ 0 →
    ∃ i', i' < h ∧ ∃ j', j' < w ∧ markers i' j' = ws i j)

instance (markers : Img) (mask : Nat → Nat → Bool) (h w : Nat) (ws : Img) :
    Decidable (WatershedSpec markers mask h w ws) := by
  unfold WatershedSpec
  infer_instance

/-- `ZStackReview.action_watershed()` (lines 3042-3104).  `seeds_labeled` puts
`current_label` at the first click and then `new_label` at the second click —
overwriting the first marker when both clicks land on the same pixel.  The
watershed transform runs on the bbox crop of the raw image with those seeds
and the label's mask; its result is the argument `ws` (in crop coordinates —
the click locations enter only through the markers that a `WatershedSpec`
hypothesis relates `ws` to).
Only pixels changing from `current_label` to `new_label` are committed, and
`new_label` is added to the index iff it is present afterwards; no index
update is ever made for `current_label`. -/
def actionWatershed (cf : Nat) (label : Int) (ws : Img) (st : ZState) :
    Option ZState :=
  let newLabel := getNewLabel st
  let imgAnn := frameAt st cf
  match bboxOf imgAnn st.height st.width label with
  | none => none
  | some (minr, minc, maxr, maxc) =>
      let subAnn : Img := fun i j => imgAnn (minr + i) (minc + j)
      let subAnn2 : Img := fun i j =>
        if ws i j = newLabel ∧ subAnn i j = label then ws i j else subAnn i j
      let ann2 : Img := fun i j =>
        if minr ≤ i ∧ i < maxr ∧ minc ≤ j ∧ j < maxc then
          subAnn2 (i - minr) (j - minc)
        else imgAnn i j
      let st2 := { st with annotated := st.annotated.set cf ann2 }
      if labelInFrame (frameAt st2 cf) st2.height st2.width newLabel then
        some (addCellInfo newLabel cf st2)
      else some st2

/-! ## The browser memento machinery (src/browser/models.py)

One HTTP request is one model step.  SQLAlchemy `PickleType` columns pickle on
commit and unpickle on the next request, so the `labels` snapshot stored in an
`Action` row and the `frame_array` stored in a `FrameMemento`
(`frame.frame.copy()`) behave as by-value copies across requests and are
modelled accordingly.  `db.session.dirty` contains exactly the label frames
assigned during the action (`MutableNdarray.__setitem__` flags them). -/

/-- A pickled label frame. -/
abbrev BFrame := List (List Int)

/-- The label metadata row (`Labels.cell_ids` / `Labels.cell_info`). -/
structure BLabels where
  cellIds : List Int
  cellInfo : List (Int × List Nat)
deriving DecidableEq

/-- An `Action` row (the memento of one action): `actionFrames` stores the
post-action copies of the frames dirtied by the action and `labels` the
post-action metadata snapshot; `done` records whether the action is currently
in the project's lineage. -/
structure BAction where
  actionId : Nat
  done : Bool
  labels : BLabels
  actionFrames : List (Nat × BFrame)
  prevAction : Option Nat
  nextAction : Option Nat
deriving DecidableEq

/-- A `Project` row with its action history: `actions` holds the rows in
creation order (`actionId` = list position) and `action` points at the
current action. -/
structure BProject where
  labelFrames : List BFrame
  labels : BLabels
  actions : List BAction
  action : Option Nat
  numActions : Nat
deriving DecidableEq

/-- `Project.create_memento(action_name, all_frames)` (models.py, lines
282-297): store a `FrameMemento` for every label frame that is dirty (or all
of them), snapshot `labels`, link the previous current action's
`next_action`, and move the project to the new action. -/
def createMemento (dirty : List Nat) (allFrames : Bool) (p : BProject) : BProject :=
  let stored := (List.range p.labelFrames.length).filterMap
    (fun fid => if allFrames ∨ fid ∈ dirty then
      some (fid, p.labelFrames.getD fid []) else none)
  let act : BAction :=
    { actionId := p.numActions, done := true, labels := p.labels,
      actionFrames := stored, prevAction := p.action, nextAction := none }
  let actions2 :=
    match p.action with
    | some cur => p.actions.map (fun b =>
        if b.actionId = cur then { b with nextAction := some act.actionId } else b)
    | none => p.actions
  { p with actions := actions2 ++ [act], action := some act.actionId,
           numActions := p.numActions + 1 }

/-- `Project.create(...)` (models.py, lines 220-246): a fresh project takes a
root memento of all frames (`create_memento('create_project',
all_frames=True)`). -/
def createProject (frames : List BFrame) (labels : BLabels) : BProject :=
  createMemento [] true
    { labelFrames := frames, labels := labels, actions := [], action := none,
      numActions := 0 }

/-- One `/edit` request (blueprints.py, lines 99-131): the edit object mutates
label frames (`writes` is the list of frame assignments the action performs,
which is exactly what lands in `db.session.dirty`) and the metadata, then
`project.create_memento(action_type)` runs before the commit. -/
def dispatchEdit (writes : List (Nat × BFrame)) (newLabels : BLabels)
    (p : BProject) : BProject :=
  let frames2 := writes.foldl (fun fs q => fs.set q.1 q.2) p.labelFrames
  createMemento (writes.map Prod.fst) false
    { p with labelFrames := frames2, labels := newLabels }

/-- `Action.before_frames` restricted to one frame (models.py, lines 730-748):
among the done actions with a smaller id that stored this frame, take the one
with the maximal id (python `max`, `none` when empty) and return its stored
copy of the frame. -/
def beforeFrame (p : BProject) (a : BAction) (fid : Nat) : Option BFrame :=
  let valid := p.actions.filter
    (fun b => b.done ∧ b.actionId < a.actionId ∧
      b.actionFrames.any (fun q => q.1 == fid))
  match valid.foldl (fun acc b =>
    match acc with
    | none => some b
    | some c => if c.actionId < b.actionId then some b else some c) none with
  | none => none
  | some b => (b.actionFrames.find? (fun q => q.1 == fid)).map Prod.snd

/-- `Project.undo()` (models.py, lines 299-328): no-op without a predecessor;
otherwise restore every frame stored by the current action to its
`before_frames` version and the metadata to `before_labels =
prev_action.labels`, un-mark the action as done and step back.  The boolean
reports whether a payload was returned; `none` models an uncaught python
exception (never hit from reachable states). -/
def undo (p : BProject) : Option (BProject × Bool) :=
  match p.action with
  | none => none
  | some cid =>
      match p.actions.get? cid with
      | none => none
      | some a =>
          match a.prevAction with
          | none => some (p, false)
          | some pid =>
              match p.actions.get? pid with
              | none => none
              | some prev =>
                  match a.actionFrames.foldlM
                    (fun fs q => (beforeFrame p a q.1).map (fun bf => fs.set q.1 bf))
                    p.labelFrames with
                  | none => none
                  | some frames2 =>
                      let actions2 := p.actions.map (fun b =>
                        if b.actionId = a.actionId then { b with done := false } else b)
                      some ({ p with labelFrames := frames2, labels := prev.labels,
                                     actions := actions2, action := some pid }, true)

/-- `Project.redo()` (models.py, lines 330-360): no-op without a successor;
otherwise replay the next action's `after_frames` (its stored copies) and
`after_labels`, mark it done and step forward. -/
def redo (p : BProject) : Option (BProject × Bool) :=
  match p.action with
  | none => none
  | some cid =>
      match p.actions.get? cid with
      | none => none
      | some a =>
          match a.nextAction with
          | none => some (p, false)
          | some nid =>
              match p.actions.get? nid with
              | none => none
              | some nextA =>
                  let frames2 := nextA.actionFrames.foldl
                    (fun fs q => fs.set q.1 q.2) p.labelFrames
                  let actions2 := p.actions.map (fun b =>
                    if b.actionId = nid then { b with done := true } else b)
                  some ({ p with labelFrames := frames2, labels := nextA.labels,
                                 actions := actions2, action := some nid }, true)

/-- A two-memento history: a fresh one-frame project with one edit dispatched
on it.  Its current memento is the tail of the history (a predecessor but no
successor). -/
def bTail : BProject :=
  dispatchEdit [(0, [[4]])] ⟨[4], [(4, [0])]⟩ (createProject [[[3]]] ⟨[3], [(3, [0])]⟩)

/-- The same history after one `undo`: the current memento is the root (no
predecessor) while a redo chain still hangs off it. -/
def bRoot : BProject := ((undo bTail).getD (bTail, false)).1

/-- The claim-C1 failing scenario: a single 2×2 frame whose only label is the
single pixel `1` at the origin. -/
def c1Frame : Img := ofList [[1, 0], [0, 0]]

/-- The session state freshly loaded from `c1Frame`. -/
def c1Init : ZState := zstackInit [c1Frame] 2 2

/-- The cropped `seeds_labeled` of `action_watershed` when both clicks land on
pixel (0, 0) of `c1Frame`: the second write overwrites the first, leaving only
the `new_label = 2` marker. -/
def c1Markers : Img := fun i j => if i = 0 ∧ j = 0 then 2 else 0

/-- The cropped watershed mask `img_sub_ann.astype(bool)` for `c1Frame`
(label 1's bbox crop is the single pixel at the origin). -/
def c1Mask : Nat → Nat → Bool := fun i j => c1Frame i j == 1

/-- A concrete watershed output satisfying `WatershedSpec` for the C1
scenario: the single masked pixel holds the only marker. -/
def c1Ws : Img := c1Markers

/-- The claim-C3 scenario: one 1×2 frame holding labels 1 and 2. -/
def c3Init : ZState := zstackInit [ofList [[1, 2]]] 1 2

/-- The claim-C7 scenario: one 2×2 frame `[[1, 1], [2, 2]]`. -/
def c7Init : ZState := zstackInit [ofList [[1, 1], [2, 2]]] 2 2

/-! ## `predict_zstack_cell_ids` (src/desktop/caliban.py, lines 3727-3858) -/

/-- `np.max` of an `h × w` image; the engine's label images are `uint16`
arrays, so all pixel values are non-negative and folding from 0 agrees with
`np.max` on every non-empty image. -/
def imgMax (img : Img) (h w : Nat) : Int := (vals img h w).foldl max 0

/-- `np.argmax` over a vector: the index of the first occurrence of the
maximal entry (later entries replace the champion only when strictly
greater). -/
def argmaxIdx (xs : List ℚ) : Nat :=
  (xs.enum.foldl (fun best p => if best.2 < p.2 then p else best)
    (0, xs.getD 0 0)).1

/-- The number of pixels of the `h × w` domain whose pair of values in the two
images satisfies `p` (`np.logical_and/or(...).sum()`). -/
def countPix (img next1 : Img) (h w : Nat) (p : Int → Int → Bool) : Nat :=
  ((List.range h).map (fun i =>
    ((List.range w).filter (fun j => p (img i j) (next1 i j))).length)).sum

/-- Entry `iou[i, j]` of the iou array: the double loop fills
`intersection.sum() / union.sum()` (held here as an exact rational, `mkRat`)
for `i ∈ cells` and `j ∈ next_cells`; all other entries keep their
`np.zeros` value. -/
def iouAt (img next1 : Img) (h w : Nat) (i j : Nat) : ℚ :=
  if (i : Int) ∈ relabelCells img h w ∧ (j : Int) ∈ relabelCells next1 h w then
    mkRat (countPix img next1 h w (fun a b => a == (i : Int) && b == (j : Int)))
      (countPix img next1 h w (fun a b => a == (i : Int) || b == (j : Int)))
  else 0

/-- `max_indices = np.argmax(iou, axis=0)`: for each column `j` of the
`(max(img)+1) × (max(next_img)+1)` iou array, the best-matching row. -/
def maxIndicesOf (img next1 : Img) (h w : Nat) : List Nat :=
  (List.range ((imgMax next1 h w).toNat + 1)).map (fun j =>
    argmaxIdx ((List.range ((imgMax img h w).toNat + 1)).map (fun i =>
      iouAt img next1 h w i j)))

/-- `np.argmax(iou, axis=1)[matched]`: the column best matching row
`matched` (`matching_next_options[matched_cell]`). -/
def bestNextOf (img next1 : Img) (h w : Nat) (matched : Nat) : Nat :=
  argmaxIdx ((List.range ((imgMax next1 h w).toNat + 1)).map (fun j =>
    iouAt img next1 h w matched j))

/-- The mutable state of the matching loop: `relabeled_next`,
`unmatched_cells` and `used_cells_src`. -/
structure PredState where
  relabeled : Img
  unmatched : List Int
  used : List Int

/-- One iteration of `for next_cell, matched_cell in enumerate(max_indices)`.
`count_matches = np.count_nonzero(np.where(max_indices == matched_cell))`
counts the **non-zero indices** `j` with `max_indices[j] == matched_cell`
(`np.count_nonzero` flattens the index tuple).  The trailing
`if matched_cell == 0 and next_cell != 0` of the source runs after the
`if`/`elif` chain but can only fire when the first branch (which requires
`matched_cell != 0`) was not taken, so it is placed in the `else` arm here;
the `continue` in the `next_cell != best_matched_next` case skips it only in
states where its guard is false anyway. -/
def predictStep (img next1 : Img) (h w : Nat) (threshold : ℚ) (maxIdx : List Nat)
    (st : PredState) (p : Nat × Nat) : PredState :=
  let nextCell := p.1
  let matched := p.2
  if matched ≠ 0 ∧ (matched : Int) ∉ st.used then
    let countMatches := ((List.range maxIdx.length).filter
      (fun j => maxIdx.getD j 0 = matched ∧ j ≠ 0)).length
    if 1 < countMatches then
      let best := bestNextOf img next1 h w matched
      if best ≠ 0 then
        if nextCell ≠ best then
          { st with unmatched := st.unmatched ++ [(nextCell : Int)] }
        else
          let st2 :=
            if threshold < iouAt img next1 h w matched best then
              let rel2 : Img := fun i2 j2 =>
                if next1 i2 j2 = (best : Int) then (matched : Int) else st.relabeled i2 j2
              { st with relabeled := rel2 }
            else
              { st with unmatched := st.unmatched ++ [(best : Int)] }
          { st2 with used := st2.used ++ [(matched : Int)] }
      else st
    else if countMatches = 1 then
      let st2 :=
        if threshold < iouAt img next1 h w matched nextCell then
          let rel2 : Img := fun i2 j2 =>
            if next1 i2 j2 = (nextCell : Int) then (matched : Int) else st.relabeled i2 j2
          { st with relabeled := rel2 }
        else
          { st with unmatched := st.unmatched ++ [(nextCell : Int)] }
      { st2 with used := st2.used ++ [(matched : Int)] }
    else st
  else
    let st1 :=
      if (matched : Int) ∈ st.used ∧ nextCell ≠ 0 then
        { st with unmatched := st.unmatched ++ [(nextCell : Int)] }
      else st
    if matched = 0 ∧ nextCell ≠ 0 then
      { st1 with unmatched := st1.unmatched ++ [(nextCell : Int)] }
    else st1

/-- Source: `predict_zstack_cell_ids(img, next_img, threshold)`.  `next_img`
is first relabelled densely from 1; with no cells in either image the
relabelled next frame is returned as is.  Otherwise the matching loop runs
and the unmatched cells are renumbered from
`max(np.max(cells), np.max(relabeled_values)) + 1` upward — where
`np.max(relabeled_values)` **raises `ValueError` on an empty array** (no cell
was matched), modelled by `none`. -/
def predictZstackCellIds (img nextImg : Img) (h w : Nat) (threshold : ℚ) :
    Option Img :=
  let next1 := relabelFrame nextImg h w 1
  let cells := relabelCells img h w
  if cells = [] then some next1
  else
    let nextCells := relabelCells next1 h w
    if nextCells = [] then some next1
    else
      let maxIdx := maxIndicesOf img next1 h w
      let st := maxIdx.enum.foldl (predictStep img next1 h w threshold maxIdx)
        { relabeled := fun _ _ => 0, unmatched := [], used := [] }
      let relabeledValues := relabelCells st.relabeled h w
      match relabeledValues.max? with
      | none => none
      | some m =>
          let currentMax := max (cells.foldl max 0) m + 1
          let final := (List.range st.unmatched.length).foldl
            (fun rel k =>
              fun i2 j2 =>
                if next1 i2 j2 = st.unmatched.getD k 0 then currentMax + (k : Int)
                else rel i2 j2)
            st.relabeled
          some final

/-! # Theorems -/

/-! ## List and numpy helper lemmas -/

theorem mem_vals {img : Img} {h w : Nat} {i j : Nat} (hi : i < h) (hj : j < w) :
    img i j ∈ vals img h w := by
  unfold vals
  refine List.mem_flatten.mpr ⟨(List.range w).map (fun j => img i j), ?_, ?_⟩
  · exact List.mem_map_of_mem _ (List.mem_range.mpr hi)
  · exact List.mem_map_of_mem _ (List.mem_range.mpr hj)

theorem npUnique_nodup (xs : List Int) : (npUnique xs).Nodup :=
  ((List.perm_insertionSort _ _).nodup_iff).mpr xs.nodup_dedup

theorem npUnique_sorted (xs : List Int) : (npUnique xs).Sorted (· ≤ ·) :=
  List.sorted_insertionSort _ _

theorem mem_npUnique {a : Int} {xs : List Int} : a ∈ npUnique xs ↔ a ∈ xs := by
  unfold npUnique
  rw [(List.perm_insertionSort (· ≤ ·) xs.dedup).mem_iff, List.mem_dedup]

/-- On a sorted list, `indexOf` is strictly order-preserving. -/
theorem indexOf_lt_of_sorted {l : List Int} (hs : l.Sorted (· ≤ ·))
    {a b : Int} (ha : a ∈ l) (hb : b ∈ l) (hab : a < b) :
    l.indexOf a < l.indexOf b := by
  induction l with
  | nil => cases ha
  | cons x tl ih =>
      have hbx : b ≠ x := by
        intro hh
        rcases List.mem_cons.mp ha with hax | hatl
        · omega
        · have hxa : x ≤ a := (List.sorted_cons.mp hs).1 a hatl
          omega
      have hbtl : b ∈ tl := (List.mem_cons.mp hb).resolve_left hbx
      rw [List.indexOf_cons_ne _ (fun hh => hbx hh.symm)]
      by_cases hax : a = x
      · rw [hax, List.indexOf_cons_self]
        exact Nat.succ_pos _
      · have hatl : a ∈ tl := (List.mem_cons.mp ha).resolve_left hax
        rw [List.indexOf_cons_ne _ (fun hh => hax hh.symm)]
        exact Nat.succ_lt_succ (ih (List.sorted_cons.mp hs).2 hatl hbtl)

/-! ## `relabel_frame` lemmas -/

theorem relabelCells_nodup (img : Img) (h w : Nat) : (relabelCells img h w).Nodup :=
  (npUnique_nodup _).filter _

theorem relabelCells_sorted (img : Img) (h w : Nat) :
    (relabelCells img h w).Sorted (· ≤ ·) :=
  (npUnique_sorted _).filter _

theorem mem_relabelCells {img : Img} {h w : Nat} {a : Int} :
    a ∈ relabelCells img h w ↔ a ∈ vals img h w ∧ a ≠ 0 := by
  unfold relabelCells
  rw [List.mem_filter, mem_npUnique]
  simp

/-- Pixel-level characterization of the `relabel_frame` write loop. -/
theorem relabelFrame_pix (img : Img) (h w : Nat) (s : Int) (i j : Nat) :
    relabelFrame img h w s i j =
      if img i j ∈ relabelCells img h w then
        s + ((relabelCells img h w).indexOf (img i j) : Int)
      else 0 := by
  unfold relabelFrame
  generalize hcl : relabelCells img h w = cl
  have hnd : cl.Nodup := hcl ▸ relabelCells_nodup img h w
  -- general fold lemma, by induction over the enumerated cell list
  suffices H : ∀ (l : List Int) (base : Nat) (acc : Img), l.Nodup →
      ((l.enumFrom base).foldl
        (fun relabeled (p : Nat × Int) =>
          fun i j => if img i j = p.2 then s + (p.1 : Int) else relabeled i j)
        acc) i j =
      if img i j ∈ l then s + ((base + l.indexOf (img i j) : Nat) : Int)
      else acc i j by
    have := H cl 0 (fun _ _ => 0) hnd
    simpa [List.enum] using this
  intro l
  induction l with
  | nil => intro base acc _; simp
  | cons x tl ih =>
      intro base acc hnodup
      rw [List.enumFrom_cons, List.foldl_cons]
      rw [ih (base + 1) _ hnodup.of_cons]
      by_cases hx : img i j = x
      · have hnotl : img i j ∉ tl := hx ▸ (List.nodup_cons.mp hnodup).1
        rw [if_neg hnotl, if_pos hx, if_pos (List.mem_cons.mpr (Or.inl hx)), hx,
          List.indexOf_cons_self]
        simp
      · by_cases hmem : img i j ∈ tl
        · rw [if_pos hmem, if_pos (List.mem_cons.mpr (Or.inr hmem)),
            List.indexOf_cons_ne _ (fun hh => hx hh.symm)]
          congr 1
          omega
        · have hxtl : img i j ∉ x :: tl := by
            simp [List.mem_cons, hx, hmem]
          rw [if_neg hmem, if_neg hxtl, if_neg hx]

/-! ## Claim C10 -/

/-- C10 counterexample: the claim quantifies over every start value `s`, but
`relabel_frame` with `start_val = 0` renumbers the smallest cell to the
background value 0: on `[[0, 1]]` the two pixels, with distinct input values,
receive the same output value 0, so the region partition is not preserved. -/
theorem c10_relabelFrame_startZero_counterexample :
    relabelFrame (ofList [[0, 1]]) 1 2 0 0 0 = relabelFrame (ofList [[0, 1]]) 1 2 0 0 1 ∧
    ofList [[0, 1]] 0 0 ≠ ofList [[0, 1]] 0 1 ∧
    toList (relabelFrame (ofList [[0, 1]]) 1 2 0) 1 2 = [[0, 0]] := by
  refine ⟨by decide, by decide, by decide⟩

/-- C10 amended: for every label image and every start value `s ≥ 1`,
`relabel_frame` maps background 0 to 0, maps the `k` distinct non-zero input
values, taken in increasing order, bijectively onto `s, s+1, …, s+k-1`
(the index into the sorted duplicate-free cell list is strictly
order-preserving and attains every position), and two in-bounds pixels receive
equal output values iff their input values were equal. -/
theorem c10_relabelFrame_dense_renumbering (img : Img) (h w : Nat) (s : Int)
    (hs : 1 ≤ s) :
    (∀ i j, img i j = 0 → relabelFrame img h w s i j = 0) ∧
    (∀ i j, i < h → j < w → img i j ≠ 0 →
      relabelFrame img h w s i j =
        s + ((relabelCells img h w).indexOf (img i j) : Int) ∧
      (relabelCells img h w).indexOf (img i j) < (relabelCells img h w).length) ∧
    (∀ a ∈ relabelCells img h w, ∀ b ∈ relabelCells img h w, a < b →
      (relabelCells img h w).indexOf a < (relabelCells img h w).indexOf b) ∧
    (∀ t, t < (relabelCells img h w).length →
      ∃ a ∈ relabelCells img h w, (relabelCells img h w).indexOf a = t) ∧
    (∀ i j i' j', i < h → j < w → i' < h → j' < w →
      (relabelFrame img h w s i j = relabelFrame img h w s i' j' ↔
        img i j = img i' j')) := by
  have hmem : ∀ i j, i < h → j < w → img i j ≠ 0 →
      img i j ∈ relabelCells img h w := fun i j hi hj hnz =>
    mem_relabelCells.mpr ⟨mem_vals hi hj, hnz⟩
  refine ⟨?_, ?_, ?_, ?_, ?_⟩
  · intro i j h0
    rw [relabelFrame_pix, if_neg]
    intro hc
    exact ((mem_relabelCells.mp hc).2 h0).elim
  · intro i j hi hj hnz
    have hm := hmem i j hi hj hnz
    rw [relabelFrame_pix, if_pos hm]
    exact ⟨rfl, List.indexOf_lt_length.mpr hm⟩
  · intro a ha b hb hab
    exact indexOf_lt_of_sorted (relabelCells_sorted img h w) ha hb hab
  · intro t ht
    refine ⟨(relabelCells img h w).get ⟨t, ht⟩, List.get_mem _ _ _, ?_⟩
    have hlt : (relabelCells img h w).indexOf ((relabelCells img h w).get ⟨t, ht⟩) <
        (relabelCells img h w).length :=
      List.indexOf_lt_length.mpr (List.get_mem _ _ _)
    have hget := List.indexOf_get (a := (relabelCells img h w).get ⟨t, ht⟩)
      (l := relabelCells img h w) hlt
    have := (relabelCells_nodup img h w).get_inj_iff.mp hget
    exact congrArg Fin.val this
  · intro i j i' j' hi hj hi' hj'
    rw [relabelFrame_pix, relabelFrame_pix]
    by_cases hz : img i j = 0 <;> by_cases hz' : img i' j' = 0
    · constructor
      · intro _; rw [hz, hz']
      · intro _; rw [hz, hz']
    · have hm' := hmem i' j' hi' hj' hz'
      rw [if_neg (fun hc => (mem_relabelCells.mp hc).2 hz), if_pos hm']
      constructor
      · intro he
        exfalso
        have : (0 : Int) < s + ((relabelCells img h w).indexOf (img i' j') : Int) := by
          have : (0 : Int) ≤ ((relabelCells img h w).indexOf (img i' j') : Int) :=
            Int.natCast_nonneg _
          omega
        omega
      · intro he
        exact absurd (he ▸ hz) hz'
    · have hm := hmem i j hi hj hz
      rw [if_pos hm, if_neg (fun hc => (mem_relabelCells.mp hc).2 hz')]
      constructor
      · intro he
        exfalso
        have : (0 : Int) ≤ ((relabelCells img h w).indexOf (img i j) : Int) :=
          Int.natCast_nonneg _
        omega
      · intro he
        exact absurd (he ▸ hz') hz
    · have hm := hmem i j hi hj hz
      have hm' := hmem i' j' hi' hj' hz'
      rw [if_pos hm, if_pos hm']
      constructor
      · intro he
        have hidx : (relabelCells img h w).indexOf (img i j) =
            (relabelCells img h w).indexOf (img i' j') := by omega
        exact (List.indexOf_inj hm hm').mp hidx
      · intro he
        rw [he]

/-- C10 witness: the amended theorem applied at a concrete image and start
value 1 (the cells 3 and 7 become 1 and 2). -/
theorem c10_relabelFrame_dense_renumbering_witness :
    (1 : Int) ≤ 1 ∧
    ((∀ i j, ofList [[0, 7], [3, 7]] i j = 0 →
        relabelFrame (ofList [[0, 7], [3, 7]]) 2 2 1 i j = 0) ∧
      (∀ i j, i < 2 → j < 2 → ofList [[0, 7], [3, 7]] i j ≠ 0 →
        relabelFrame (ofList [[0, 7], [3, 7]]) 2 2 1 i j =
          1 + ((relabelCells (ofList [[0, 7], [3, 7]]) 2 2).indexOf
            (ofList [[0, 7], [3, 7]] i j) : Int) ∧
        (relabelCells (ofList [[0, 7], [3, 7]]) 2 2).indexOf
            (ofList [[0, 7], [3, 7]] i j) <
          (relabelCells (ofList [[0, 7], [3, 7]]) 2 2).length) ∧
      (∀ a ∈ relabelCells (ofList [[0, 7], [3, 7]]) 2 2,
        ∀ b ∈ relabelCells (ofList [[0, 7], [3, 7]]) 2 2, a < b →
        (relabelCells (ofList [[0, 7], [3, 7]]) 2 2).indexOf a <
          (relabelCells (ofList [[0, 7], [3, 7]]) 2 2).indexOf b) ∧
      (∀ t, t < (relabelCells (ofList [[0, 7], [3, 7]]) 2 2).length →
        ∃ a ∈ relabelCells (ofList [[0, 7], [3, 7]]) 2 2,
          (relabelCells (ofList [[0, 7], [3, 7]]) 2 2).indexOf a = t) ∧
      (∀ i j i' j', i < 2 → j < 2 → i' < 2 → j' < 2 →
        (relabelFrame (ofList [[0, 7], [3, 7]]) 2 2 1 i j =
            relabelFrame (ofList [[0, 7], [3, 7]]) 2 2 1 i' j' ↔
          ofList [[0, 7], [3, 7]] i j = ofList [[0, 7], [3, 7]] i' j'))) :=
  ⟨by decide, c10_relabelFrame_dense_renumbering (ofList [[0, 7], [3, 7]]) 2 2 1 (by decide)⟩

/-! ## ZStack helper lemmas -/

theorem labelInFrame_true_of {img : Img} {h w : Nat} {l : Int} {i j : Nat}
    (hi : i < h) (hj : j < w) (hv : img i j = l) :
    labelInFrame img h w l = true := by
  unfold labelInFrame
  rw [List.any_eq_true]
  exact ⟨i, List.mem_range.mpr hi,
    List.any_eq_true.mpr ⟨j, List.mem_range.mpr hj, by simp [hv]⟩⟩

theorem labelInFrame_false_iff {img : Img} {h w : Nat} {l : Int} :
    labelInFrame img h w l = false ↔ ∀ i, i < h → ∀ j, j < w → img i j ≠ l := by
  unfold labelInFrame
  simp [List.any_eq_true, List.mem_range]

theorem getD_set_self {α : Type} (l : List α) (f : Nat) (x d : α)
    (hf : f < l.length) : (l.set f x).getD f d = x := by
  rw [List.getD_eq_getElem?_getD, List.getElem?_set_self', List.getElem?_eq_getElem hf]
  rfl

theorem getD_set_ne {α : Type} (l : List α) (f g : Nat) (x d : α)
    (h : f ≠ g) : (l.set f x).getD g d = l.getD g d := by
  rw [List.getD_eq_getElem?_getD, List.getElem?_set_ne h, ← List.getD_eq_getElem?_getD]

theorem addCellInfo_annotated (l : Int) (f : Nat) (st : ZState) :
    (addCellInfo l f st).annotated = st.annotated := by
  unfold addCellInfo
  split
  · rfl
  · split <;> rfl

theorem addCellInfo_height (l : Int) (f : Nat) (st : ZState) :
    (addCellInfo l f st).height = st.height := by
  unfold addCellInfo
  split
  · rfl
  · split <;> rfl

theorem addCellInfo_width (l : Int) (f : Nat) (st : ZState) :
    (addCellInfo l f st).width = st.width := by
  unfold addCellInfo
  split
  · rfl
  · split <;> rfl

theorem mem_addCellInfo_of_ne (l : Int) (f : Nat) (st : ZState)
    {p : Int × List Nat} (hp : p ∈ st.cellInfo) (hne : p.1 ≠ l) :
    p ∈ (addCellInfo l f st).cellInfo := by
  unfold addCellInfo
  split
  · exact hp
  · split
    · exact List.mem_map.mpr ⟨p, hp, by simp [infoSet, hne]⟩
    · exact List.mem_append_left _ hp

/-! ## Claim C1 -/

/-- C1: evaluation of the code at the failing input.  In the state freshly
loaded from the 2×2 single-frame volume `[[1, 0], [0, 0]]` (which satisfies
the index/volume invariant), the watershed action with both seed clicks on
pixel (0, 0) of label 1 produces — for every watershed output obeying the
library's marker guarantees — an accepted state whose index still lists
label 1 in frame 0 while the volume no longer contains label 1 anywhere:
`seeds_labeled[y2, x2] = new_label` overwrites the `current_label` marker, the
whole 1×1 mask floods to `new_label = 2`, and `del_cell_info` is never called
for the original label (contradicting the action's own docstring that the
original label is never completely removed from the frame). -/
theorem c1_watershed_breaks_index_consistency (ws : Img)
    (hws : WatershedSpec c1Markers c1Mask 1 1 ws) :
    Consistent c1Init ∧
    ∃ st2, actionWatershed 0 1 ws c1Init = some st2 ∧ ¬ Consistent st2 := by
  have hw00 : ws 0 0 = 2 := by
    have h := hws.1 0 (by omega) 0 (by omega) (by decide) (by decide)
    simpa [c1Markers] using h
  have hannot : c1Init.annotated = [c1Frame] := rfl
  have hc100 : c1Frame 0 0 = 1 := by decide
  have hc101 : c1Frame 0 1 = 0 := by decide
  have hc110 : c1Frame 1 0 = 0 := by decide
  have hc111 : c1Frame 1 1 = 0 := by decide
  refine ⟨by decide, ?_⟩
  unfold actionWatershed
  dsimp only
  have hbb : bboxOf (frameAt c1Init 0) c1Init.height c1Init.width 1 =
      some (0, 0, 1, 1) := by decide
  rw [hbb]
  have hnl : getNewLabel c1Init = 2 := by decide
  rw [hnl]
  dsimp only
  split
  case isTrue hcnd =>
    refine ⟨_, rfl, ?_⟩
    intro hcons
    have hmem0 : ((1 : Int), [(0 : Nat)]) ∈ c1Init.cellInfo := by decide
    have key := hcons.1 (1, [0]) (mem_addCellInfo_of_ne 2 0 _ hmem0 (by decide))
    have hlf := (key.2 0 (by decide)).2
    have hh2 : c1Init.height = 2 := rfl
    have hw2 : c1Init.width = 2 := rfl
    simp only [frameAt, addCellInfo_annotated, addCellInfo_height, addCellInfo_width,
      hannot, hh2, hw2] at hlf
    simp only [labelInFrame, List.any_eq_true, List.mem_range] at hlf
    obtain ⟨i, hi, j, hj, hval⟩ := hlf
    interval_cases i <;> interval_cases j <;>
      simp [hw00, hc100, hc101, hc110, hc111] at hval
  case isFalse hcnd =>
    exfalso
    apply hcnd
    refine labelInFrame_true_of (i := 0) (j := 0) (by decide) (by decide) ?_
    simp only [frameAt, hannot]
    simp [hw00, hc100]

/-- C1 witness: the failing input instantiated with the concrete watershed
output forced by the specification (the masked pixel takes the only marker). -/
theorem c1_watershed_breaks_index_consistency_witness :
    WatershedSpec c1Markers c1Mask 1 1 c1Ws ∧
    (Consistent c1Init ∧
      ∃ st2, actionWatershed 0 1 c1Ws c1Init = some st2 ∧ ¬ Consistent st2) :=
  ⟨by decide, c1_watershed_breaks_index_consistency c1Ws (by decide)⟩

/-! ## Claim C3 -/

theorem mem_le_max? {l : List Int} {m : Int} (hm : l.max? = some m) :
    ∀ b ∈ l, b ≤ m :=
  (List.max?_le_iff (fun _ _ _ => max_le_iff) hm).1 (le_refl m)

/-- C3 counterexample, refuting two parts of the claim as stated.  First, the
tracking variant does not return 1 on an empty id set: `TrackReview`'s
`get_max_label` is `max(self.tracks)`, and python's `max` on an empty dict
raises `ValueError` (modelled as `none`).  Second, freed ids are reused: in
the session loaded from the single frame `[[1, 2]]`, deleting label 2's mask
frees id 2 (it leaves both the volume and the index), after which
`get_new_label` returns 2 again. -/
theorem c3_freed_id_reuse_and_track_empty_counterexample :
    trackGetNewLabel [] = none ∧
    labelInFrame (frameAt c3Init 0) c3Init.height c3Init.width 2 = true ∧
    (actionDeleteMask 2 0 c3Init).map getNewLabel = some 2 ∧
    (actionDeleteMask 2 0 c3Init).map (fun s => decide (2 ∈ s.cellIds)) = some false :=
  ⟨by decide, by decide, by decide, by decide⟩

/-- C3 amended: `get_new_label` returns `max(ids) + 1` when the layer's id set
is non-empty; the single-image variant returns 1 on an empty id set while the
tracking variant's `max` is undefined there.  Every id returned is strictly
greater than every id currently in the index and — in an index-consistent
state — than every non-zero value currently in the volume.  (Ids freed
earlier may be returned again once the maximum drops, so only this
current-state bound holds.) -/
theorem c3_get_new_label_amended (st : ZState) (tracks : List Int)
    (hcons : Consistent st) (htr : tracks ≠ []) :
    (st.cellIds = [] → getNewLabel st = 1) ∧
    (∀ m, st.cellIds.max? = some m → getNewLabel st = m + 1) ∧
    (∀ l ∈ st.cellIds, l < getNewLabel st) ∧
    (∀ f, f < st.annotated.length → ∀ i, i < st.height → ∀ j, j < st.width →
      frameAt st f i j ≠ 0 → frameAt st f i j < getNewLabel st) ∧
    (∃ m, tracks.max? = some m ∧ trackGetNewLabel tracks = some (m + 1)) := by
  have hmax : ∀ l ∈ st.cellIds, l < getNewLabel st := by
    intro l hl
    cases hmx : st.cellIds.max? with
    | none =>
        rw [List.max?_eq_none_iff] at hmx
        rw [hmx] at hl
        cases hl
    | some m =>
        have hne : st.cellIds ≠ [] := by
          intro hh
          rw [hh] at hmx
          cases hmx
        have hle := mem_le_max? hmx l hl
        unfold getNewLabel getMaxLabel
        rw [if_neg hne, hmx]
        simpa using Int.lt_add_one_of_le hle
  refine ⟨?_, ?_, hmax, ?_, ?_⟩
  · intro h
    unfold getNewLabel getMaxLabel
    rw [if_pos h]
    rfl
  · intro m hm
    have hne : st.cellIds ≠ [] := by
      intro hh
      rw [hh] at hm
      cases hm
    unfold getNewLabel getMaxLabel
    rw [if_neg hne, hm]
    rfl
  · intro f hf i hi j hj hnz
    obtain ⟨p, hp, hpv⟩ := hcons.2.2.2.2 f hf i hi j hj hnz
    have := hcons.2.2.1 p hp
    rw [hpv] at this
    exact hmax _ this
  · cases htr' : tracks.max? with
    | none =>
        rw [List.max?_eq_none_iff] at htr'
        exact absurd htr' htr
    | some m => exact ⟨m, rfl, by simp [trackGetNewLabel, htr']⟩

/-- C3 witness: the amended theorem applied to the consistent two-label state
and a one-track list. -/
theorem c3_get_new_label_amended_witness :
    (Consistent c3Init ∧ ([(5 : Int)] : List Int) ≠ []) ∧
    ((c3Init.cellIds = [] → getNewLabel c3Init = 1) ∧
      (∀ m, c3Init.cellIds.max? = some m → getNewLabel c3Init = m + 1) ∧
      (∀ l ∈ c3Init.cellIds, l < getNewLabel c3Init) ∧
      (∀ f, f < c3Init.annotated.length → ∀ i, i < c3Init.height →
        ∀ j, j < c3Init.width → frameAt c3Init f i j ≠ 0 →
          frameAt c3Init f i j < getNewLabel c3Init) ∧
      (∃ m, ([(5 : Int)] : List Int).max? = some m ∧
        trackGetNewLabel [(5 : Int)] = some (m + 1))) :=
  ⟨⟨by decide, by decide⟩, c3_get_new_label_amended c3Init [(5 : Int)] (by decide) (by decide)⟩

/-! ## Edit engine lemmas -/

theorem foldl_fixed {α β : Type} {f : α → β → α} {l : List β} {a : α}
    (h : ∀ b ∈ l, f a b = a) : l.foldl f a = a := by
  induction l with
  | nil => rfl
  | cons x tl ih =>
      rw [List.foldl_cons, h x (List.mem_cons_self x tl)]
      exact ih (fun b hb => h b (List.mem_cons_of_mem _ hb))

theorem set_getD_self {α : Type} (l : List α) (i : Nat) (d : α)
    (h : i < l.length) : l.set i (l.getD i d) = l := by
  apply List.ext_getElem?
  intro n
  by_cases hn : i = n
  · subst hn
    rw [List.getElem?_set_self', List.getD_eq_getElem?_getD, List.getElem?_eq_getElem h]
    simp
  · rw [List.getElem?_set_ne hn]

theorem findIdx?_beq_of_nodup {α : Type} [BEq α] [LawfulBEq α] {l : List α} {x : α}
    {v : Nat} (hnd : l.Nodup) (hv : l.get? v = some x) :
    l.findIdx? (· == x) = some v := by
  suffices H : ∀ (l : List α) (v start : Nat), l.Nodup → l.get? v = some x →
      l.findIdx? (· == x) start = some (start + v) by
    have := H l v 0 hnd hv
    simpa using this
  intro l
  induction l with
  | nil => intro v start _ hv; simp at hv
  | cons y tl ih =>
      intro v start hnodup hv
      cases v with
      | zero =>
          have hyx : y = x := by simpa using hv
          rw [List.findIdx?_cons, if_pos (by simp [hyx])]
          simp
      | succ n =>
          have hvtl : tl.get? n = some x := by simpa using hv
          have hxtl : x ∈ tl := List.get?_mem hvtl
          have hyx : (y == x) = false := by
            have : y ≠ x := fun hh => (List.nodup_cons.mp hnodup).1 (hh ▸ hxtl)
            simpa using this
          rw [List.findIdx?_cons, if_neg (by simp [hyx]), ih n (start + 1)
            hnodup.of_cons hvtl]
          congr 1
          omega

theorem mem_npUnique' {α : Type} [LinearOrder α] [DecidableEq α] {a : α}
    {xs : List α} : a ∈ npUnique xs ↔ a ∈ xs := by
  unfold npUnique
  rw [(List.perm_insertionSort (· ≤ ·) xs.dedup).mem_iff, List.mem_dedup]

/-- `Edit.action_replace` with two equal, in-range labels is the identity on a
well-formed state: every re-encoded row equals the original row, so each value
is rewritten to itself. -/
theorem actionReplaceEdit_self (st : EditState) (L : Int) (hwf : EditWf st)
    (h0 : 0 ≤ L) (hlt : L < (st.newLabel : Int)) :
    actionReplaceEdit L L st = st := by
  obtain ⟨hrect, hnd, hzero, hvals⟩ := hwf
  unfold actionReplaceEdit
  have hclean : cleanLabel L st = L.toNat := by
    unfold cleanLabel
    congr 1
    omega
  apply foldl_fixed
  intro v hv
  have hvmem : v ∈ st.labels.flatten := mem_npUnique'.mp hv
  have hvlt : v < st.overlaps.length := hvals v hvmem
  have hrowmem : st.overlaps.getD v [] ∈ st.overlaps := by
    rw [List.getD_eq_getElem?_getD, List.getElem?_eq_getElem hvlt]
    simp only [Option.getD_some]
    exact List.getElem_mem hvlt
  simp only [hclean]
  by_cases hcond : (st.overlaps.getD v []).getD L.toNat false = true
  · -- the row encodes the label; clearing then setting the same bit
    -- reconstructs the row, whose first matching index is `v` itself
    have hlen : (st.overlaps.getD v []).length = st.newLabel :=
      hrect _ hrowmem
    have hclt : L.toNat < (st.overlaps.getD v []).length := by
      rw [hlen]
      omega
    have hcne : L.toNat ≠ 0 := by
      intro hh
      have h0f := hzero _ hrowmem
      rw [hh] at hcond
      exact Bool.noConfusion (hcond.symm.trans h0f)
    have hnewVec : ((st.overlaps.getD v []).set L.toNat false).set L.toNat
        (decide (L.toNat ≠ 0)) = st.overlaps.getD v [] := by
      rw [List.set_set]
      have hdec : decide (L.toNat ≠ 0) = (st.overlaps.getD v []).getD L.toNat false := by
        rw [hcond]
        simpa using hcne
      rw [hdec]
      exact set_getD_self _ _ false hclt
    have hget : getValue (st.overlaps.getD v []) st = (v, st) := by
      have hvsome : st.overlaps.get? v = some (st.overlaps.getD v []) := by
        rw [List.get?_eq_getElem?, List.getElem?_eq_getElem hvlt,
          List.getD_eq_getElem?_getD, List.getElem?_eq_getElem hvlt]
        rfl
      simp only [getValue]
      rw [findIdx?_beq_of_nodup hnd hvsome]
    rw [if_pos hcond, hnewVec, hget]
    have hmapid : ∀ r : List Nat, r.map (fun x => if x = v then v else x) = r :=
      fun r => List.map_id'' (fun x => by by_cases hx : x = v <;> simp [hx]) r
    have hlabels : st.labels.map (List.map (fun x => if x = v then v else x)) =
        st.labels :=
      List.map_id'' hmapid st.labels
    simp only [hlabels]
  · rw [if_neg hcond]

/-! ## Claim C5 -/

/-- C5: replace is a self-guarded no-op.  In `ZStackReview`, both
`action_replace` (scope "all") and `action_replace_single` (scope "frame")
explicitly hit the `label_1 == label_2` guard and leave the state untouched.
In the `Edit` engine of src/deepcell_label/label.py there is no explicit
guard, but on a well-formed state with an in-range label the rewrite is the
identity: each affected row is re-encoded to itself (the `b` bit is cleared
and then restored through `a = b`), `get_value` finds the original row first,
and every value is rewritten to itself. -/
theorem c5_replace_self_guard :
    (∀ (st : ZState) (L : Int), actionReplace L L st = some st) ∧
    (∀ (st : ZState) (L : Int) (f : Nat), actionReplaceSingle L L f st = some st) ∧
    (∀ (st : EditState) (L : Int), EditWf st → 0 ≤ L → L < (st.newLabel : Int) →
      actionReplaceEdit L L st = st) := by
  refine ⟨?_, ?_, ?_⟩
  · intro st L
    unfold actionReplace
    rw [if_pos rfl]
  · intro st L f
    unfold actionReplaceSingle
    rw [if_pos rfl]
  · exact fun st L hwf h0 hlt => actionReplaceEdit_self st L hwf h0 hlt

/-- C5 witness: self-replace applied to the concrete two-label session and to
the concrete well-formed `Edit` state. -/
theorem c5_replace_self_guard_witness :
    (EditWf c8Interior ∧ (0 : Int) ≤ 1 ∧ (1 : Int) < (c8Interior.newLabel : Int)) ∧
    actionReplace 3 3 c3Init = some c3Init ∧
    actionReplaceSingle 3 3 0 c3Init = some c3Init ∧
    actionReplaceEdit 1 1 c8Interior = c8Interior :=
  ⟨⟨by decide, by decide, by decide⟩,
    c5_replace_self_guard.1 c3Init 3,
    c5_replace_self_guard.2.1 c3Init 3 0,
    c5_replace_self_guard.2.2 c8Interior 1 (by decide) (by decide) (by decide)⟩

/-! ## Claim C6 -/

/-- C6 (amended): threshold safety holds for the desktop
`action_threshold_predict`.  Whatever boolean crop the hysteresis threshold
produces, (1) every pixel the action changes was background 0, lies inside
the bounding box, and receives the freshly allocated label; and (2) when the
thresholded region is empty the action returns the state unchanged — no
volume write and no index update.  (The browser `Edit.action_threshold` does
not share this guarantee: see the claim's counterexample.)  The hypotheses
`hnew`/`hpos` record that the freshly allocated label is positive and absent
from the frame, which hold in every index-consistent state with positive
labels (claim C3). -/
theorem c6_threshold_predict_safety (st : ZState) (cf y1 y2 x1 x2 : Nat)
    (hyst : Nat → Nat → Bool)
    (hcf : cf < st.annotated.length)
    (hy2 : y2 ≤ st.height) (hx2 : x2 ≤ st.width)
    (hnew : ∀ i, i < st.height → ∀ j, j < st.width →
      frameAt st cf i j ≠ getNewLabel st)
    (hpos : getNewLabel st ≠ 0) :
    (∀ i j, frameAt (actionThresholdPredict cf y1 y2 x1 x2 hyst st) cf i j ≠
        frameAt st cf i j →
      frameAt st cf i j = 0 ∧ (y1 ≤ i ∧ i < y2 ∧ x1 ≤ j ∧ j < x2) ∧
      frameAt (actionThresholdPredict cf y1 y2 x1 x2 hyst st) cf i j =
        getNewLabel st) ∧
    ((∀ i, i < y2 - y1 → ∀ j, j < x2 - x1 → hyst i j = false) →
      actionThresholdPredict cf y1 y2 x1 x2 hyst st = st) := by
  constructor
  · intro i j
    unfold actionThresholdPredict
    dsimp only
    split
    case isTrue hcnd =>
      intro hchg
      simp only [frameAt, addCellInfo_annotated] at hchg ⊢
      rw [getD_set_self _ _ _ _ hcf] at hchg ⊢
      by_cases hbox : y1 ≤ i ∧ i < y2 ∧ x1 ≤ j ∧ j < x2
      · rw [if_pos hbox] at hchg ⊢
        obtain ⟨hb1, hb2, hb3, hb4⟩ := hbox
        have hiy : y1 + (i - y1) = i := by omega
        have hjx : x1 + (j - x1) = j := by omega
        rw [hiy, hjx] at hchg ⊢
        by_cases hz : st.annotated.getD cf (fun _ _ => 0) i j = 0
        · rw [if_pos hz] at hchg ⊢
          refine ⟨hz, ⟨hb1, hb2, hb3, hb4⟩, ?_⟩
          by_cases hh : hyst (i - y1) (j - x1) = true
          · rw [if_pos hh]
          · rw [if_neg hh] at hchg
            exact absurd hz.symm hchg
        · rw [if_neg hz] at hchg
          exact absurd rfl hchg
      · rw [if_neg hbox] at hchg
        exact absurd rfl hchg
    case isFalse hcnd =>
      intro hchg
      exact absurd rfl hchg
  · intro hempty
    unfold actionThresholdPredict
    dsimp only
    rw [if_neg ?hc]
    case hc =>
      intro hlf
      rw [labelInFrame] at hlf
      simp only [List.any_eq_true, List.mem_range, beq_iff_eq] at hlf
      obtain ⟨i, hi, j, hj, hval⟩ := hlf
      rw [hempty i hi j hj] at hval
      by_cases hz : frameAt st cf (y1 + i) (x1 + j) = 0
      · rw [if_pos hz] at hval
        simp at hval
        exact hpos hval.symm
      · rw [if_neg hz] at hval
        exact hnew (y1 + i) (by omega) (x1 + j) (by omega) hval

/-- C6 witness: the safety theorem applied to the two-label session, a 1×2
bounding box and an everywhere-false hysteresis crop. -/
theorem c6_threshold_predict_safety_witness :
    (0 < c3Init.annotated.length ∧ 1 ≤ c3Init.height ∧ 2 ≤ c3Init.width ∧
      (∀ i, i < c3Init.height → ∀ j, j < c3Init.width →
        frameAt c3Init 0 i j ≠ getNewLabel c3Init) ∧
      getNewLabel c3Init ≠ 0) ∧
    ((∀ i j, frameAt (actionThresholdPredict 0 0 1 0 2 (fun _ _ => false) c3Init) 0 i j ≠
        frameAt c3Init 0 i j →
      frameAt c3Init 0 i j = 0 ∧ (0 ≤ i ∧ i < 1 ∧ 0 ≤ j ∧ j < 2) ∧
      frameAt (actionThresholdPredict 0 0 1 0 2 (fun _ _ => false) c3Init) 0 i j =
        getNewLabel c3Init) ∧
    ((∀ i, i < 1 - 0 → ∀ j, j < 2 - 0 → (fun _ _ => false : Nat → Nat → Bool) i j = false) →
      actionThresholdPredict 0 0 1 0 2 (fun _ _ => false) c3Init = c3Init)) :=
  ⟨⟨by decide, by decide, by decide, by decide, by decide⟩,
    c6_threshold_predict_safety c3Init 0 0 1 0 2 (fun _ _ => false)
      (by decide) (by decide) (by decide) (by decide) (by decide)⟩

/-- C6 counterexample: the cited browser variant `Edit.action_threshold`
violates the claimed no-overwrite property.  On the 1×1 frame whose pixel
value 1 encodes label 1, thresholding the whole frame with label 2 under the
default `writeMode = 'overlap'` rewrites the non-background pixel from value
1 to the fresh overlap value 2 (whose row encodes labels 1 **and** 2), and
under `'overwrite'` the pixel is replaced by the one-hot value for label 2
alone — in both modes a pixel whose value was non-zero before the action is
changed. -/
theorem c6_edit_threshold_overwrites_counterexample :
    c6Edit.labels = [[1]] ∧
    (actionThresholdEdit 0 0 0 0 2 (fun _ _ => true) WriteMode.overlap c6Edit).labels
      = [[2]] ∧
    (actionThresholdEdit 0 0 0 0 2 (fun _ _ => true) WriteMode.overlap c6Edit).overlaps
      = [[false, false, false], [false, true, false], [false, true, true]] ∧
    (actionThresholdEdit 0 0 0 0 2 (fun _ _ => true) WriteMode.overwrite c6Edit).labels
      = [[2]] ∧
    (actionThresholdEdit 0 0 0 0 2 (fun _ _ => true) WriteMode.overwrite c6Edit).overlaps
      = [[false, false, false], [false, true, false], [false, false, true]] := by
  decide

/-! ## Claim C7 -/

/-- C7: single-frame swap.  When two distinct (nonnegative-labelled) labels
are selected in the same in-range frame of a volume with nonnegative pixels,
the action exchanges exactly the pixels of the two labels in that frame (the
−1 sentinel of the three `np.where` passes never collides with a pixel
value), leaves `cell_info` and `cell_ids` untouched, and leaves every other
frame untouched.  On the concrete 1×2×2×1 volume `[[1, 1], [2, 2]]`, swapping
1 and 2 in frame 0 yields `[[2, 2], [1, 1]]` with both labels still indexed
in frame 0. -/
theorem c7_swap_single_frame (st : ZState) (l1 l2 : Int) (f : Nat)
    (hne : l1 ≠ l2) (hl1 : 0 ≤ l1) (hl2 : 0 ≤ l2)
    (hf : f < st.annotated.length)
    (hnn : ∀ i, i < st.height → ∀ j, j < st.width → 0 ≤ frameAt st f i j) :
    (∀ i, i < st.height → ∀ j, j < st.width →
      frameAt (actionSwapSingleFrame l1 f l2 f st) f i j =
        if frameAt st f i j = l1 then l2
        else if frameAt st f i j = l2 then l1 else frameAt st f i j) ∧
    (actionSwapSingleFrame l1 f l2 f st).cellInfo = st.cellInfo ∧
    (actionSwapSingleFrame l1 f l2 f st).cellIds = st.cellIds ∧
    (∀ g, g ≠ f → frameAt (actionSwapSingleFrame l1 f l2 f st) g = frameAt st g) ∧
    toList (frameAt (actionSwapSingleFrame 1 0 2 0 c7Init) 0) 2 2 = [[2, 2], [1, 1]] ∧
    (actionSwapSingleFrame 1 0 2 0 c7Init).cellInfo = c7Init.cellInfo ∧
    c7Init.cellInfo = [(1, [0]), (2, [0])] := by
  unfold actionSwapSingleFrame
  rw [if_pos (⟨hne, rfl⟩ : l1 ≠ l2 ∧ f = f)]
  dsimp only
  refine ⟨?_, rfl, rfl, ?_, by decide, by decide, by decide⟩
  · intro i hi j hj
    unfold frameAt
    rw [getD_set_self _ _ _ _ hf]
    have hv := hnn i hi j hj
    simp only [frameAt] at hv
    split_ifs <;> omega
  · intro g hg
    unfold frameAt
    rw [getD_set_ne _ _ _ _ _ (fun hh => hg hh.symm)]

/-- C7 witness: the swap theorem applied to the concrete volume
`[[1, 1], [2, 2]]`. -/
theorem c7_swap_single_frame_witness :
    ((1 : Int) ≠ 2 ∧ (0 : Int) ≤ 1 ∧ (0 : Int) ≤ 2 ∧ 0 < c7Init.annotated.length ∧
      (∀ i, i < c7Init.height → ∀ j, j < c7Init.width → 0 ≤ frameAt c7Init 0 i j)) ∧
    ((∀ i, i < c7Init.height → ∀ j, j < c7Init.width →
      frameAt (actionSwapSingleFrame 1 0 2 0 c7Init) 0 i j =
        if frameAt c7Init 0 i j = 1 then 2
        else if frameAt c7Init 0 i j = 2 then 1 else frameAt c7Init 0 i j) ∧
    (actionSwapSingleFrame 1 0 2 0 c7Init).cellInfo = c7Init.cellInfo ∧
    (actionSwapSingleFrame 1 0 2 0 c7Init).cellIds = c7Init.cellIds ∧
    (∀ g, g ≠ 0 → frameAt (actionSwapSingleFrame 1 0 2 0 c7Init) g = frameAt c7Init g) ∧
    toList (frameAt (actionSwapSingleFrame 1 0 2 0 c7Init) 0) 2 2 = [[2, 2], [1, 1]] ∧
    (actionSwapSingleFrame 1 0 2 0 c7Init).cellInfo = c7Init.cellInfo ∧
    c7Init.cellInfo = [(1, [0]), (2, [0])]) :=
  ⟨⟨by decide, by decide, by decide, by decide, by decide⟩,
    c7_swap_single_frame c7Init 1 2 0 (by decide) (by decide) (by decide)
      (by decide) (by decide)⟩

/-! ## Claim C8 -/

/-- C8 counterexample: on the claim's own example — the 1×1 frame `[[1]]`
whose single pixel carries label 1 — `Edit.action_erode(1)` leaves the state
entirely unchanged: skimage's erosion reflects the border, so the 3×3 minimum
over the one-pixel mask is still the full mask and no pixel is removed.  The
frame is `[[1]]` afterwards, not all-zero as claimed (and the `Edit` engine of
src/deepcell_label/label.py maintains no `LabelIndex.info` to delete from). -/
theorem c8_erode_one_pixel_counterexample :
    actionErode 1 c8OnePixel = c8OnePixel ∧
    (actionErode 1 c8OnePixel).labels = [[1]] ∧
    (actionErode 1 c8OnePixel).labels ≠ [[0]] :=
  ⟨by decide, by decide, by decide⟩

/-- C8 amended: when reflected-border 3×3 erosion does remove every pixel of
the label — e.g. label 1 occupying only the interior pixel of a 3×3 frame —
the affected pixels are re-encoded to the background value 0, the label no
longer appears anywhere (its mask is empty), and `overlaps` is unchanged;
the `Edit` engine keeps no per-label frame index, so there is no index record
to delete.  A label filling the whole frame (the 1×1 example) is left
unchanged, because reflected-border erosion removes nothing from it. -/
theorem c8_erode_amended :
    (actionErode 1 c8Interior).labels = [[0, 0, 0], [0, 0, 0], [0, 0, 0]] ∧
    (actionErode 1 c8Interior).overlaps = c8Interior.overlaps ∧
    anyMask (getMask 1 (actionErode 1 c8Interior)) = false ∧
    actionErode 1 c8OnePixel = c8OnePixel :=
  ⟨by decide, by decide, by decide, by decide⟩

/-! ## Undo/redo of a dispatched edit (browser history) -/

theorem filterMap_ifP_map_fst {α β : Type} (l : List α) (P : α → Prop)
    [DecidablePred P] (g : α → β) :
    (l.filterMap (fun x => if P x then some (x, g x) else none)).map Prod.fst =
      l.filter (fun x => P x) := by
  induction l with
  | nil => rfl
  | cons x tl ih =>
      rw [List.filterMap_cons, List.filter_cons]
      by_cases hx : P x
      · rw [if_pos hx, if_pos (by simpa using hx), List.map_cons, ih]
      · rw [if_neg hx, if_neg (by simpa using hx), ih]

theorem mem_filterMap_ifP {α β : Type} {l : List α} {P : α → Prop}
    [DecidablePred P] {g : α → β} {x : α} (hx : x ∈ l) (hP : P x) :
    (x, g x) ∈ l.filterMap (fun y => if P y then some (y, g y) else none) :=
  List.mem_filterMap.mpr ⟨x, hx, by rw [if_pos hP]⟩

theorem mem_filterMap_ifP_inv {α β : Type} {l : List α} {P : α → Prop}
    [DecidablePred P] {g : α → β} {q : α × β}
    (hq : q ∈ l.filterMap (fun y => if P y then some (y, g y) else none)) :
    q.1 ∈ l ∧ P q.1 ∧ q.2 = g q.1 := by
  obtain ⟨y, hy, heq⟩ := List.mem_filterMap.mp hq
  by_cases hP : P y
  · rw [if_pos hP] at heq
    cases heq
    exact ⟨hy, hP, rfl⟩
  · rw [if_neg hP] at heq
    cases heq

theorem filterMap_some_eq_map {α β : Type} (l : List α) (g : α → β) :
    l.filterMap (fun x => some (g x)) = l.map g := by
  induction l with
  | nil => rfl
  | cons x tl ih => rw [List.filterMap_cons, List.map_cons, ih]

theorem find?_map_pair {β : Type} (l : List Nat) (g : Nat → β) (fid : Nat)
    (hfid : fid ∈ l) :
    ((l.map (fun k => (k, g k))).find? (fun q => q.1 == fid)) = some (fid, g fid) := by
  induction l with
  | nil => cases hfid
  | cons x tl ih =>
      rw [List.map_cons]
      by_cases hx : x = fid
      · subst hx
        rw [List.find?_cons_of_pos _ (by simp)]
      · rw [List.find?_cons_of_neg _ (by simp [hx])]
        exact ih ((List.mem_cons.mp hfid).resolve_left (fun hh => hx hh.symm))

theorem length_foldl_set (ops : List (Nat × BFrame)) (l : List BFrame) :
    (ops.foldl (fun fs q => fs.set q.1 q.2) l).length = l.length := by
  induction ops generalizing l with
  | nil => rfl
  | cons q tl ih => rw [List.foldl_cons, ih, List.length_set]

theorem get?_foldl_set_not_mem {ops : List (Nat × BFrame)} {l : List BFrame}
    {k : Nat} (hk : k ∉ ops.map Prod.fst) :
    (ops.foldl (fun fs q => fs.set q.1 q.2) l).get? k = l.get? k := by
  induction ops generalizing l with
  | nil => rfl
  | cons q tl ih =>
      rw [List.foldl_cons]
      have hk1 : k ∉ tl.map Prod.fst := fun hh => hk (List.mem_cons_of_mem _ hh)
      have hkq : q.1 ≠ k := by
        intro hh
        exact hk (List.mem_cons.mpr (Or.inl hh.symm))
      rw [ih hk1, List.get?_eq_getElem?, List.getElem?_set_ne hkq, ← List.get?_eq_getElem?]

theorem get?_foldl_set_mem {ops : List (Nat × BFrame)} {l : List BFrame}
    {k : Nat} {v : BFrame} (hnd : (ops.map Prod.fst).Nodup)
    (hkv : (k, v) ∈ ops) (hk : k < l.length) :
    (ops.foldl (fun fs q => fs.set q.1 q.2) l).get? k = some v := by
  induction ops generalizing l with
  | nil => cases hkv
  | cons q tl ih =>
      rw [List.map_cons, List.nodup_cons] at hnd
      obtain ⟨hq1, hnd2⟩ := hnd
      rw [List.foldl_cons]
      rcases List.mem_cons.mp hkv with hq | htl
      · subst hq
        rw [get?_foldl_set_not_mem (by simpa using hq1), List.get?_eq_getElem?,
          List.getElem?_set_self', List.getElem?_eq_getElem hk]
        rfl
      · have hqk : q.1 ≠ k := by
          intro hh
          apply hq1
          rw [hh]
          exact List.mem_map.mpr ⟨(k, v), htl, rfl⟩
        exact ih hnd2 htl (by rw [List.length_set]; exact hk)

theorem foldlM_set_of_some (F : Nat → Option BFrame) (g : Nat → BFrame)
    (ops : List (Nat × BFrame)) (init : List BFrame)
    (h : ∀ q ∈ ops, F q.1 = some (g q.1)) :
    ops.foldlM (fun fs q => (F q.1).map (fun bf => fs.set q.1 bf)) init =
      some (ops.foldl (fun fs q => fs.set q.1 (g q.1)) init) := by
  induction ops generalizing init with
  | nil => rfl
  | cons q tl ih =>
      rw [List.foldlM_cons, h q (List.mem_cons_self q tl)]
      simp only [Option.map_some', Option.bind_some, List.foldl_cons]
      exact ih _ (fun r hr => h r (List.mem_cons_of_mem _ hr))

theorem foldl_setg_eq (g : Nat → BFrame) (ops : List (Nat × BFrame))
    (init : List BFrame) :
    ops.foldl (fun fs q => fs.set q.1 (g q.1)) init =
      (ops.map (fun q => (q.1, g q.1))).foldl (fun fs q => fs.set q.1 q.2) init := by
  induction ops generalizing init with
  | nil => rfl
  | cons q tl ih => rw [List.foldl_cons, List.map_cons, List.foldl_cons, ih]

theorem filterMap_ifP_map_pair {β γ : Type} (l : List Nat) (P : Nat → Prop)
    [DecidablePred P] (g : Nat → β) (g2 : Nat → γ) :
    (l.filterMap (fun fid => if P fid then some (fid, g fid) else none)).map
        (fun q => (q.1, g2 q.1)) =
      l.filterMap (fun fid => if P fid then some (fid, g2 fid) else none) := by
  induction l with
  | nil => rfl
  | cons x tl ih =>
      rw [List.filterMap_cons, List.filterMap_cons]
      by_cases hx : P x
      · rw [if_pos hx, if_pos hx, List.map_cons, ih]
      · rw [if_neg hx, if_neg hx, ih]

theorem get?_foldl_set_filterMap_range (g : Nat → BFrame) (P : Nat → Prop)
    [DecidablePred P] (init : List BFrame) (n : Nat) (k : Nat)
    (hn : init.length = n) :
    (List.foldl (fun fs q => fs.set q.1 q.2) init
        (List.filterMap (fun fid => if P fid then some (fid, g fid) else none)
          (List.range n))).get? k =
      if k < n ∧ P k then some (g k) else init.get? k := by
  by_cases hk : k < n ∧ P k
  · rw [if_pos hk]
    apply get?_foldl_set_mem
    · rw [filterMap_ifP_map_fst]
      exact (List.nodup_range n).filter _
    · exact mem_filterMap_ifP (List.mem_range.mpr hk.1) hk.2
    · rw [hn]
      exact hk.1
  · rw [if_neg hk]
    apply get?_foldl_set_not_mem
    rw [filterMap_ifP_map_fst]
    intro hmem
    rw [List.mem_filter] at hmem
    exact hk ⟨List.mem_range.mp hmem.1, by simpa using hmem.2⟩

/-- C2: undo/redo round-trip.  Dispatching any single edit (a list of
in-range frame writes plus a metadata update, snapshotted by
`create_memento`) and then calling `undo` restores every label frame and the
pre-action labels exactly and moves the pointer back to the root memento;
`redo` then reproduces the post-edit frames, labels and pointer exactly. -/
theorem c2_undo_redo_round_trip (frames0 : List BFrame) (labels0 labels1 : BLabels)
    (writes : List (Nat × BFrame)) (hw : ∀ q ∈ writes, q.1 < frames0.length) :
    ∃ p0' p1',
      undo (dispatchEdit writes labels1 (createProject frames0 labels0)) =
        some (p0', true) ∧
      p0'.labelFrames = frames0 ∧ p0'.labels = labels0 ∧ p0'.action = some 0 ∧
      redo p0' = some (p1', true) ∧
      p1'.labelFrames =
        (dispatchEdit writes labels1 (createProject frames0 labels0)).labelFrames ∧
      p1'.labels = labels1 ∧
      p1'.action = (dispatchEdit writes labels1 (createProject frames0 labels0)).action := by
  unfold dispatchEdit createProject createMemento undo
  dsimp only
  simp only [List.nil_append, List.map_cons, List.map_nil]
  norm_num
  simp only [filterMap_some_eq_map]
  rw [foldlM_set_of_some _ (fun fid => frames0[fid]?.getD []) _ _ ?hF]
  case hF =>
    intro q hq
    obtain ⟨hmem, hP, hval⟩ := mem_filterMap_ifP_inv hq
    have hwf : q.1 ∈ List.map Prod.fst writes := hP.resolve_left (by simp)
    rw [List.mem_range, length_foldl_set] at hmem
    unfold beforeFrame
    dsimp only
    rw [List.filter_cons_of_pos, List.filter_cons_of_neg, List.filter_nil]
    · dsimp only [List.foldl_cons, List.foldl_nil]
      rw [find?_map_pair _ _ _ (List.mem_range.mpr hmem)]
      rfl
    · simp
    · simp only [decide_eq_true_eq]
      refine ⟨trivial, by norm_num, ?_⟩
      rw [List.any_eq_true]
      refine ⟨(q.1, frames0[q.1]?.getD []),
        List.mem_map.mpr ⟨q.1, List.mem_range.mpr hmem, rfl⟩, by simp⟩
  have hlen1 : (List.foldl (fun fs q => fs.set q.1 q.2) frames0 writes).length
      = frames0.length := length_foldl_set _ _
  have hrest :
      List.foldl (fun fs q => fs.set q.1 (frames0[q.1]?.getD []))
        (List.foldl (fun fs q => fs.set q.1 q.2) frames0 writes)
        (List.filterMap
          (fun fid =>
            if false = true ∨ fid ∈ List.map Prod.fst writes then
              some (fid, (List.foldl (fun fs q => fs.set q.1 q.2) frames0 writes)[fid]?.getD [])
            else none)
          (List.range (List.foldl (fun fs q => fs.set q.1 q.2) frames0 writes).length))
      = frames0 := by
    rw [foldl_setg_eq (fun fid => frames0[fid]?.getD [])]
    rw [filterMap_ifP_map_pair _ _ _ (fun fid => frames0[fid]?.getD [])]
    apply List.ext_get?
    intro k
    rw [get?_foldl_set_filterMap_range (fun fid => frames0[fid]?.getD []) _ _ _ _ rfl]
    by_cases hkw : k ∈ List.map Prod.fst writes
    · have hk0 : k < frames0.length := by
        obtain ⟨q, hq, hq1⟩ := List.mem_map.mp hkw
        exact hq1 ▸ hw q hq
      rw [if_pos ⟨by rw [hlen1]; exact hk0, Or.inr hkw⟩]
      rw [List.get?_eq_getElem?, List.getElem?_eq_getElem hk0]
      simp
    · rw [if_neg (by simp [hkw])]
      exact get?_foldl_set_not_mem hkw
  rw [hrest]
  refine ⟨_, rfl, rfl, rfl, rfl, ?_⟩
  have hredo2 :
      List.foldl (fun fs q => fs.set q.1 q.2) frames0
        (List.filterMap
          (fun fid =>
            if false = true ∨ fid ∈ List.map Prod.fst writes then
              some (fid, (List.foldl (fun fs q => fs.set q.1 q.2) frames0 writes)[fid]?.getD [])
            else none)
          (List.range (List.foldl (fun fs q => fs.set q.1 q.2) frames0 writes).length))
      = List.foldl (fun fs q => fs.set q.1 q.2) frames0 writes := by
    apply List.ext_get?
    intro k
    rw [get?_foldl_set_filterMap_range
      (fun fid => (List.foldl (fun fs q => fs.set q.1 q.2) frames0 writes)[fid]?.getD [])
      _ _ _ _ hlen1.symm]
    by_cases hkw : k ∈ List.map Prod.fst writes
    · have hk0 : k < frames0.length := by
        obtain ⟨q, hq, hq1⟩ := List.mem_map.mp hkw
        exact hq1 ▸ hw q hq
      have hk1 : k < (List.foldl (fun fs q => fs.set q.1 q.2) frames0 writes).length := by
        rw [hlen1]
        exact hk0
      rw [if_pos ⟨hk1, Or.inr hkw⟩]
      rw [List.get?_eq_getElem?, List.getElem?_eq_getElem hk1]
      simp
    · rw [if_neg (by simp [hkw])]
      exact (get?_foldl_set_not_mem hkw).symm
  refine ⟨_, rfl, ?_, rfl, rfl⟩
  dsimp only
  exact hredo2

/-- Witness: the concrete replace-style edit of the spec scenario — one frame
`[[1, 2]]`, the single write turning it into `[[2, 2]]` with the index updated
to contain only label 2 — round-trips through undo and redo. -/
theorem c2_undo_redo_round_trip_witness :
    (∀ q ∈ [((0 : Nat), ([[2, 2]] : BFrame))], q.1 < ([[[1, 2]]] : List BFrame).length) ∧
    ∃ p0' p1',
      undo (dispatchEdit [((0 : Nat), ([[2, 2]] : BFrame))] ⟨[2], [(2, [0])]⟩
          (createProject [[[1, 2]]] ⟨[1, 2], [(1, [0]), (2, [0])]⟩)) = some (p0', true) ∧
      p0'.labelFrames = [[[1, 2]]] ∧ p0'.labels = ⟨[1, 2], [(1, [0]), (2, [0])]⟩ ∧
      p0'.action = some 0 ∧
      redo p0' = some (p1', true) ∧
      p1'.labelFrames =
        (dispatchEdit [((0 : Nat), ([[2, 2]] : BFrame))] ⟨[2], [(2, [0])]⟩
          (createProject [[[1, 2]]] ⟨[1, 2], [(1, [0]), (2, [0])]⟩)).labelFrames ∧
      p1'.labels = ⟨[2], [(2, [0])]⟩ ∧
      p1'.action =
        (dispatchEdit [((0 : Nat), ([[2, 2]] : BFrame))] ⟨[2], [(2, [0])]⟩
          (createProject [[[1, 2]]] ⟨[1, 2], [(1, [0]), (2, [0])]⟩)).action :=
  ⟨by decide, c2_undo_redo_round_trip [[[1, 2]]] ⟨[1, 2], [(1, [0]), (2, [0])]⟩
    ⟨[2], [(2, [0])]⟩ [(0, [[2, 2]])] (by decide)⟩

/-- C9: at any project state, if the current memento has no predecessor then
`undo` returns the project completely unchanged with a `false` payload flag,
and independently, if it has no successor then `redo` does — no frame, label
or pointer mutation and no error in either case, whatever the rest of the
history looks like. -/
theorem c9_history_end_noop (p : BProject) (cid : Nat) (a : BAction)
    (hcid : p.action = some cid) (ha : p.actions.get? cid = some a) :
    (a.prevAction = none → undo p = some (p, false)) ∧
    (a.nextAction = none → redo p = some (p, false)) := by
  constructor
  · intro hprev
    unfold undo
    rw [hcid]
    dsimp only
    rw [ha]
    dsimp only
    rw [hprev]
  · intro hnext
    unfold redo
    rw [hcid]
    dsimp only
    rw [ha]
    dsimp only
    rw [hnext]

/-- Witness: in a two-memento history, `redo` at the tail memento (which has
a predecessor but no successor) and `undo` at the root memento (no
predecessor, with a pending redo chain) are both payloadless no-ops. -/
theorem c9_history_end_noop_witness :
    redo bTail = some (bTail, false) ∧ undo bRoot = some (bRoot, false) := by
  have h1 := c9_history_end_noop bTail 1
    { actionId := 1, done := true, labels := ⟨[4], [(4, [0])]⟩,
      actionFrames := [(0, [[4]])], prevAction := some 0, nextAction := none }
    (by decide) (by decide)
  have h2 := c9_history_end_noop bRoot 0
    { actionId := 0, done := true, labels := ⟨[3], [(3, [0])]⟩,
      actionFrames := [(0, [[3]])], prevAction := none, nextAction := some 1 }
    (by decide) (by decide)
  exact ⟨h1.2 (by decide), h2.1 (by decide)⟩

/-- C4: on `img = [[1, 0], [0, 0]]` and `next_img = [[0, 0], [0, 2]]` both
frames contain a cell but no pair overlaps, so the matching loop matches
nothing, `relabeled_values` is empty and `np.max(relabeled_values)` raises
`ValueError` instead of giving the unmatched cell a fresh label (the claimed
fresh-id allocation never happens); the claim's all-zero-next-frame scenario
does return the frame unchanged with no ids allocated. -/
theorem c4_predict_unmatched_crash :
    Option.map (fun r => toList r 2 2)
      (predictZstackCellIds (ofList [[1, 0], [0, 0]]) (ofList [[0, 0], [0, 2]])
        2 2 (mkRat 1 10)) = none ∧
    Option.map (fun r => toList r 2 2)
      (predictZstackCellIds (ofList [[1, 1], [2, 2]]) (ofList [[0, 0], [0, 0]])
        2 2 (mkRat 1 10)) = some [[0, 0], [0, 0]] := by decide

end DeepcellLabel
